import Mathlib

/-!
Verification development for the bounded, priority-aware, aging-enabled
message queue of the producer-consumer simulation (queue.c, cli.c,
consumer.c, analytics.c).

The queue state and its operations are shallowly embedded: the C struct
Queue (circular buffer, front/rear/count/capacity, shutdown flag) together
with the two counting semaphores (slots_available, items_available) becomes
the record QState; each thread-safe operation becomes a function on QState
giving the quiescent-state effect of one completed call (the mutex-guarded
critical section executes atomically, so the sequential function captures
exactly the per-operation state transition).  A call of queue_enqueue_safe
or queue_dequeue_safe that would park on an empty semaphore (sem_trywait
fails and no token is available) does not complete from a quiescent state
without another thread running; such a call is modelled as the result none.
A parked caller woken by queue_shutdown consumes one of the posted tokens,
observes the flag and posts the token back, returning -1 with the state
unchanged; that observable effect coincides with re-running the operation
in the post-shutdown state, where the entry check returns -1 directly, so
the quiescent step model also covers those completions.

C int / long fields are modelled as Int (no arithmetic in the modelled
paths approaches the 32/64-bit bounds); array indices and counters that
are always non-negative (front, rear, count, capacity, semaphore values)
are modelled as Nat.  The buffer array Message buffer[MAX_QUEUE_SIZE] is
modelled as a total function Nat -> Message updated pointwise, read and
written only at indices below capacity <= MAX_QUEUE_SIZE.
-/

/-- MAX_PRODUCERS from config.h. -/
def MAX_PRODUCERS : Nat := 10

/-- MAX_CONSUMERS from config.h. -/
def MAX_CONSUMERS : Nat := 5

/-- MAX_QUEUE_SIZE from config.h. -/
def MAX_QUEUE_SIZE : Nat := 20

/-- MIN_QUEUE_SIZE from config.h. -/
def MIN_QUEUE_SIZE : Nat := 1

/-- PRIORITY_MAX from config.h. -/
def PRIORITY_MAX : Int := 9

/-- Message struct from queue.h: payload, priority, producer id, creation
timestamp in wall-clock milliseconds. -/
structure Message where
  data : Int
  priority : Int
  producer_id : Int
  timestamp : Int
  deriving Repr, DecidableEq

instance : Inhabited Message := ⟨⟨0, 0, 0, 0⟩⟩

/-- Queue struct from queue.h plus the two counting semaphores of the
thread-safe version in queue.c.  slots models sem value of
slots_available, items models sem value of items_available. -/
structure QState where
  buffer : Nat → Message
  front : Nat
  rear : Nat
  count : Nat
  capacity : Nat
  shutdown : Bool
  slots : Nat
  items : Nat

/-- Pointwise array update, modelling q->buffer[i] = m. -/
def bufSet (b : Nat → Message) (i : Nat) (m : Message) : Nat → Message :=
  fun j => if j = i then m else b j

/-- effective_priority from queue.c: for every aging interval the item has
waited, effective priority rises by 1, capped at PRIORITY_MAX; no boost
when the wait is not positive or aging is disabled.  The C source reads
the aging interval from the configuration constant AGING_INTERVAL_MS
(runtime-configurable via the -a flag in the final build); it is passed
here as the parameter aging.  The C cast (int)(wait / AGING_INTERVAL_MS)
is modelled as exact Int division, faithful whenever the quotient fits in
a 32-bit int; both operands are positive on the dividing path, where C
truncating division, Lean division and floor division all agree. -/
def effective_priority (msg : Message) (now_ms aging : Int) : Int :=
  let wait : Int := now_ms - msg.timestamp
  let boost : Int := if 0 < wait ∧ 0 < aging then wait / aging else 0
  let eff : Int := msg.priority + boost
  if PRIORITY_MAX < eff then PRIORITY_MAX else eff

/-- Loop body state of find_highest_priority_index: the index of the best
item so far, its effective priority, and its timestamp. -/
structure ScanBest where
  idx : Nat
  pri : Int
  ts : Int
  deriving Repr, DecidableEq

/-- Scan loop of find_highest_priority_index over the logical offsets
i = 0, 1, ..., count-1 (the list l).  A strictly higher effective
priority wins; on a tie the smaller (older) timestamp wins. -/
def scanAux (q : QState) (now_ms aging : Int) : List Nat → ScanBest → ScanBest
  | [], best => best
  | i :: rest, best =>
    let current_index := (q.front + i) % q.capacity
    let m := q.buffer current_index
    let eff := effective_priority m now_ms aging
    if best.pri < eff then
      scanAux q now_ms aging rest ⟨current_index, eff, m.timestamp⟩
    else if eff = best.pri then
      if m.timestamp < best.ts then
        scanAux q now_ms aging rest ⟨current_index, best.pri, m.timestamp⟩
      else
        scanAux q now_ms aging rest best
    else
      scanAux q now_ms aging rest best

/-- find_highest_priority_index from queue.c: none models the -1 return
for an empty queue; otherwise the scan starts from the front item and
walks all count resident offsets. -/
def find_highest_priority_index (q : QState) (now_ms aging : Int) : Option Nat :=
  if q.count = 0 then none
  else
    let m0 := q.buffer q.front
    some (scanAux q now_ms aging (List.range q.count)
      ⟨q.front, effective_priority m0 now_ms aging, m0.timestamp⟩).idx

/-- internal_enqueue from queue.c: defensive overflow check, then write at
rear, advance rear circularly, bump count.  none models the -1 return. -/
def internal_enqueue (q : QState) (msg : Message) : Option QState :=
  if q.capacity ≤ q.count then none
  else some { q with
    buffer := bufSet q.buffer q.rear msg
    rear := (q.rear + 1) % q.capacity
    count := q.count + 1 }

/-- Gap-filling shift loop of internal_dequeue: walk from the removed
index back to front, copying each predecessor one slot forward.  The C
while loop needs at most count - 1 iterations because the removed index
is front + j (mod capacity) with j < count; the explicit fuel argument
(called with count) bounds the recursion and is never exhausted on the
states the queue produces. -/
def shiftLoop (cap front : Nat) : Nat → Nat → (Nat → Message) → (Nat → Message)
  | 0, _, buf => buf
  | fuel + 1, current_index, buf =>
    if current_index = front then buf
    else
      let next_index := (current_index + cap - 1) % cap
      shiftLoop cap front fuel next_index (bufSet buf current_index (buf next_index))

/-- internal_dequeue from queue.c: underflow check, priority scan, copy the
selected message out, close the gap by shifting predecessors toward the
removed slot, advance front, decrement count.  none models the -1
returns (empty buffer, failed scan). -/
def internal_dequeue (q : QState) (now_ms aging : Int) : Option (Message × QState) :=
  if q.count = 0 then none
  else
    match find_highest_priority_index q now_ms aging with
    | none => none
    | some highest_index =>
      let msg := q.buffer highest_index
      let buf1 :=
        if highest_index = q.front then q.buffer
        else shiftLoop q.capacity q.front q.count highest_index q.buffer
      some (msg, { q with
        buffer := buf1
        front := (q.front + 1) % q.capacity
        count := q.count - 1 })

/-- queue_init from queue.c: capacity must lie in
[MIN_QUEUE_SIZE, MAX_QUEUE_SIZE]; the buffer is zeroed, indices and count
start at 0, the shutdown flag is clear, the slots semaphore starts at
capacity and the items semaphore at 0.  none models the -1 return. -/
def queue_init (capacity : Nat) : Option QState :=
  if capacity < MIN_QUEUE_SIZE ∨ MAX_QUEUE_SIZE < capacity then none
  else some {
    buffer := fun _ => ⟨0, 0, 0, 0⟩
    front := 0
    rear := 0
    count := 0
    capacity := capacity
    shutdown := false
    slots := capacity
    items := 0 }

/-- queue_enqueue_safe from queue.c, as the quiescent-state effect of one
completed call.  Entry shutdown check returns -1 untouched; sem_trywait
on slots succeeds iff the semaphore value is positive (EAGAIN otherwise,
upon which the caller parks on sem_wait: modelled as none, since the call
then completes only after another thread posts); after taking the token
the shutdown flag is re-checked (returning the token on shutdown); the
critical section runs internal_enqueue, whose defensive failure returns
the token; on success one token is posted to items.  The result Int is
the C return value. -/
def queue_enqueue_safe (q : QState) (msg : Message) : Option (Int × QState) :=
  if q.shutdown then some (-1, q)
  else if 0 < q.slots then
    let q1 := { q with slots := q.slots - 1 }
    if q1.shutdown then some (-1, { q1 with slots := q1.slots + 1 })
    else
      match internal_enqueue q1 msg with
      | none => some (-1, { q1 with slots := q1.slots + 1 })
      | some q2 => some (0, { q2 with items := q2.items + 1 })
  else none

/-- queue_dequeue_safe from queue.c, as the quiescent-state effect of one
completed call, mirroring queue_enqueue_safe with the items semaphore
acquired and one token posted to slots on success.  The selected message
is returned alongside the C return value. -/
def queue_dequeue_safe (q : QState) (now_ms aging : Int) :
    Option (Int × Option Message × QState) :=
  if q.shutdown then some (-1, none, q)
  else if 0 < q.items then
    let q1 := { q with items := q.items - 1 }
    if q1.shutdown then some (-1, none, { q1 with items := q1.items + 1 })
    else
      match internal_dequeue q1 now_ms aging with
      | none => some (-1, none, { q1 with items := q1.items + 1 })
      | some (msg, q2) => some (0, some msg, { q2 with slots := q2.slots + 1 })
  else none

/-- queue_shutdown from queue.c: set the shutdown flag, then post
MAX_PRODUCERS + MAX_CONSUMERS tokens to each semaphore to wake every
potentially parked thread. -/
def queue_shutdown (q : QState) : QState :=
  { q with
    shutdown := true
    slots := q.slots + (MAX_PRODUCERS + MAX_CONSUMERS)
    items := q.items + (MAX_PRODUCERS + MAX_CONSUMERS) }

/-- Run a list of enqueue calls (producer.c loop body without the sleep),
all of which must return 0 (success). -/
def runEnq (q : QState) : List Message → Option QState
  | [] => some q
  | m :: ms =>
    match queue_enqueue_safe q m with
    | some (0, q1) => runEnq q1 ms
    | _ => none

/-- Run n successive dequeue calls (consumer.c loop body without the
sleep), all of which must return 0, collecting the returned messages in
order. -/
def runDeq (now_ms aging : Int) : Nat → QState → Option (List Message × QState)
  | 0, q => some ([], q)
  | n + 1, q =>
    match queue_dequeue_safe q now_ms aging with
    | some (0, some m, q1) =>
      match runDeq now_ms aging n q1 with
      | some (ms, qf) => some (m :: ms, qf)
      | none => none
    | _ => none

/-- One queue operation of the concurrent system: an enqueue of a message,
a dequeue (parameterised by the wall clock reading and aging interval the
scan uses), or a shutdown request. -/
inductive QOp where
  | enq (msg : Message)
  | deq (now_ms aging : Int)
  | shut

/-- Quiescent-state effect of one completed operation.  The first
component is the observable outcome: none when the call parks on an empty
semaphore and hence does not complete from this state (the state is then
unchanged, since sem_wait acquires nothing while parked); some (r, m)
gives the C return value r and, for dequeue, the delivered message. -/
def applyOp : QOp → QState → Option (Int × Option Message) × QState
  | .enq m, q =>
    match queue_enqueue_safe q m with
    | none => (none, q)
    | some (r, q1) => (some (r, none), q1)
  | .deq now_ms aging, q =>
    match queue_dequeue_safe q now_ms aging with
    | none => (none, q)
    | some (r, m, q1) => (some (r, m), q1)
  | .shut, q => (some (0, none), queue_shutdown q)

/-- Run a sequence of operations, collecting each outcome in order. -/
def runOps : QState → List QOp → List (Option (Int × Option Message)) × QState
  | q, [] => ([], q)
  | q, op :: ops =>
    let step := applyOp op q
    let rest := runOps step.2 ops
    (step.1 :: rest.1, rest.2)

/-- Run a sequence of operations and count the successful enqueues and
successful dequeues (C return value 0), returning both counters and the
final state. -/
def countSucc : QState → List QOp → Nat × Nat × QState
  | q, [] => (0, 0, q)
  | q, op :: ops =>
    let step := applyOp op q
    let rest := countSucc step.2 ops
    match op, step.1 with
    | .enq _, some (0, _) => (rest.1 + 1, rest.2.1, rest.2.2)
    | .deq _ _, some (0, _) => (rest.1, rest.2.1 + 1, rest.2.2)
    | _, _ => rest

/-- States reachable from a freshly constructed queue of capacity C by
completed enqueue, dequeue and shutdown operations (no operation
mid-flight). -/
inductive Reachable (C : Nat) : QState → Prop where
  | init : ∀ q0, queue_init C = some q0 → Reachable C q0
  | step : ∀ q op, Reachable C q → Reachable C (applyOp op q).2

/-- Action component of the optimisation recommendation printed by
analytics_print_recommendations in analytics.c (the four action strings
become the four constructors, in the order they appear in the source). -/
inductive RecommendAction where
  | increase_queue_size
  | add_producers
  | decrease_queue_size
  | maintain
  deriving DecidableEq, Repr

/-- Fields of the Analytics struct (analytics.h) that feed the final
recommendation; counters are C ints that are only ever incremented, so
they are modelled as Nat. -/
structure Analytics where
  num_samples : Nat
  queue_occupancy_sum : Nat
  queue_full_count : Nat
  queue_empty_count : Nat
  queue_capacity : Nat
  total_producer_blocks : Nat
  total_consumer_blocks : Nat

/-- Decision logic of analytics_print_recommendations from analytics.c,
returning the chosen action and the suggested queue size instead of
printing them.  The double arithmetic of the source is modelled exactly
over ℚ; the cast (int)(queue_capacity * 0.7) equals queue_capacity * 7 / 10
in integer arithmetic for every capacity in the valid range 0..20 (checked
per value against IEEE double rounding), which is how it is written here. -/
def analytics_print_recommendations (a : Analytics) : RecommendAction × Nat :=
  let utilisation : ℚ :=
    if 0 < a.num_samples ∧ 0 < a.queue_capacity then
      (a.queue_occupancy_sum : ℚ) / a.num_samples / a.queue_capacity * 100
    else 0
  if 0 < a.num_samples ∧ 0 < a.total_producer_blocks ∧
      (a.queue_full_count : ℚ) / a.num_samples > 1 / 10 then
    let recommended_size := a.queue_capacity * 2
    (.increase_queue_size,
      if MAX_QUEUE_SIZE < recommended_size then MAX_QUEUE_SIZE else recommended_size)
  else if 0 < a.num_samples ∧ 0 < a.total_consumer_blocks ∧
      (a.queue_empty_count : ℚ) / a.num_samples > 3 / 10 then
    (.add_producers, a.queue_capacity)
  else if utilisation < 30 then
    let recommended_size := a.queue_capacity * 7 / 10
    (.decrease_queue_size,
      if recommended_size < MIN_QUEUE_SIZE then MIN_QUEUE_SIZE else recommended_size)
  else
    (.maintain, a.queue_capacity)

/-- Recommendation rules exactly as the specification words them, for the
refinement comparison: fraction-full above 10 percent with positive
producer blocks gives increase-capacity suggesting twice the capacity
capped at 20; else fraction-empty above 30 percent with positive consumer
blocks gives add-producers; else average utilisation below 30 percent
gives decrease-capacity suggesting 70 percent of capacity floored at 1;
else maintain.  In ℚ a division by zero yields 0, so with zero samples no
fraction exceeds its threshold and the average utilisation reads 0. -/
def recommendation_per_spec (a : Analytics) : RecommendAction × Nat :=
  if (a.queue_full_count : ℚ) / a.num_samples > 1 / 10 ∧ 0 < a.total_producer_blocks then
    (.increase_queue_size, min (a.queue_capacity * 2) 20)
  else if (a.queue_empty_count : ℚ) / a.num_samples > 3 / 10 ∧ 0 < a.total_consumer_blocks then
    (.add_producers, a.queue_capacity)
  else if (a.queue_occupancy_sum : ℚ) * 100 / ((a.num_samples : ℚ) * a.queue_capacity) < 30 then
    (.decrease_queue_size, max (a.queue_capacity * 7 / 10) 1)
  else
    (.maintain, a.queue_capacity)

/-- The state queue_init builds for capacity 1, written out. -/
def initStateOne : QState where
  buffer := fun _ => ⟨0, 0, 0, 0⟩
  front := 0
  rear := 0
  count := 0
  capacity := 1
  shutdown := false
  slots := 1
  items := 0

/-- A capacity-1 queue holding one resident message whose shutdown flag
has been set (the state queue_shutdown leaves after one successful
enqueue into a fresh capacity-1 queue). -/
def shutdownStateEx : QState where
  buffer := fun _ => ⟨7, 5, 1, 100⟩
  front := 0
  rear := 0
  count := 1
  capacity := 1
  shutdown := true
  slots := 15
  items := 16

/-- Operation sequence used by the conservation witness: an enqueue, a
dequeue, another enqueue, a shutdown, and a rejected enqueue. -/
def consOpsEx : List QOp :=
  [.enq ⟨1, 3, 1, 10⟩, .deq 11 0, .enq ⟨2, 7, 1, 12⟩, .shut, .enq ⟨3, 5, 1, 13⟩]


/-- Behaviour of internal_dequeue on a non-empty buffer: some message is
removed, the front index advances circularly and the count drops by one
(the buffer is rearranged by the gap-filling shift). -/
theorem internal_dequeue_pos (q : QState) (now_ms aging : Int) (h : ¬ q.count = 0) :
    ∃ msg buf1, internal_dequeue q now_ms aging =
      some (msg, { q with buffer := buf1, front := (q.front + 1) % q.capacity,
                          count := q.count - 1 }) := by
  rcases hfind : find_highest_priority_index q now_ms aging with _ | j
  · exact absurd hfind (by simp [find_highest_priority_index, h])
  · refine ⟨q.buffer j,
      if j = q.front then q.buffer else shiftLoop q.capacity q.front q.count j q.buffer, ?_⟩
    simp [internal_dequeue, h, hfind]

/-- Exhaustive behaviour of one completed queue_enqueue_safe call. -/
theorem queue_enqueue_safe_cases (q : QState) (msg : Message) :
    (q.shutdown = true ∧ queue_enqueue_safe q msg = some (-1, q)) ∨
    (q.shutdown = false ∧ q.slots = 0 ∧ queue_enqueue_safe q msg = none) ∨
    (q.shutdown = false ∧ 0 < q.slots ∧ q.capacity ≤ q.count ∧
      queue_enqueue_safe q msg = some (-1, q)) ∨
    (q.shutdown = false ∧ 0 < q.slots ∧ q.count < q.capacity ∧
      ∃ q1, queue_enqueue_safe q msg = some (0, q1) ∧
        q1.buffer = bufSet q.buffer q.rear msg ∧ q1.front = q.front ∧
        q1.rear = (q.rear + 1) % q.capacity ∧ q1.count = q.count + 1 ∧
        q1.capacity = q.capacity ∧ q1.shutdown = q.shutdown ∧
        q1.slots = q.slots - 1 ∧ q1.items = q.items + 1) := by
  obtain ⟨buf, fr, re, cnt, cap, sd, sl, it⟩ := q
  cases sd with
  | true =>
    left
    exact ⟨rfl, by simp [queue_enqueue_safe]⟩
  | false =>
    rcases Nat.eq_zero_or_pos sl with h0 | hpos
    · right; left
      subst h0
      exact ⟨rfl, rfl, by simp [queue_enqueue_safe]⟩
    · rcases le_or_lt cap cnt with hfull | hroom
      · right; right; left
        refine ⟨rfl, hpos, hfull, ?_⟩
        simp [queue_enqueue_safe, Nat.pos_iff_ne_zero.mp hpos, hpos,
          internal_enqueue, hfull, Nat.sub_add_cancel hpos]
      · right; right; right
        refine ⟨rfl, hpos, hroom,
          ⟨bufSet buf re msg, fr, (re + 1) % cap, cnt + 1, cap, false, sl - 1, it + 1⟩,
          ?_, rfl, rfl, rfl, rfl, rfl, rfl, rfl, rfl⟩
        simp [queue_enqueue_safe, hpos, internal_enqueue, not_le.mpr hroom]

/-- Exhaustive behaviour of one completed queue_dequeue_safe call; the
success case exposes the fields the invariants track. -/
theorem queue_dequeue_safe_cases (q : QState) (now_ms aging : Int) :
    (q.shutdown = true ∧ queue_dequeue_safe q now_ms aging = some (-1, none, q)) ∨
    (q.shutdown = false ∧ q.items = 0 ∧ queue_dequeue_safe q now_ms aging = none) ∨
    (q.shutdown = false ∧ 0 < q.items ∧ q.count = 0 ∧
      queue_dequeue_safe q now_ms aging = some (-1, none, q)) ∨
    (q.shutdown = false ∧ 0 < q.items ∧ 0 < q.count ∧
      ∃ msg q1, queue_dequeue_safe q now_ms aging = some (0, some msg, q1) ∧
        q1.count = q.count - 1 ∧ q1.items = q.items - 1 ∧ q1.slots = q.slots + 1 ∧
        q1.shutdown = q.shutdown ∧ q1.capacity = q.capacity) := by
  obtain ⟨buf, fr, re, cnt, cap, sd, sl, it⟩ := q
  cases sd with
  | true =>
    left
    exact ⟨rfl, by simp [queue_dequeue_safe]⟩
  | false =>
    rcases Nat.eq_zero_or_pos it with h0 | hpos
    · right; left
      subst h0
      exact ⟨rfl, rfl, by simp [queue_dequeue_safe]⟩
    · rcases Nat.eq_zero_or_pos cnt with hc0 | hcpos
      · right; right; left
        subst hc0
        refine ⟨rfl, hpos, rfl, ?_⟩
        simp [queue_dequeue_safe, hpos, internal_dequeue, Nat.sub_add_cancel hpos]
      · right; right; right
        refine ⟨rfl, hpos, hcpos, ?_⟩
        obtain ⟨msg, buf1, hint⟩ :=
          internal_dequeue_pos ⟨buf, fr, re, cnt, cap, false, sl, it - 1⟩ now_ms aging
            (by simpa using Nat.pos_iff_ne_zero.mp hcpos)
        exact ⟨msg, ⟨buf1, (fr + 1) % cap, re, cnt - 1, cap, false, sl + 1, it - 1⟩,
          by simp [queue_dequeue_safe, hpos, hint], rfl, rfl, rfl, rfl, rfl⟩

/-- Balance invariant of countSucc: successful enqueues plus initial
occupancy equal successful dequeues plus final occupancy. -/
theorem countSucc_balance (ops : List QOp) : ∀ q : QState,
    (countSucc q ops).1 + q.count = (countSucc q ops).2.1 + ((countSucc q ops).2.2).count := by
  induction ops with
  | nil => intro q; simp [countSucc]
  | cons op ops ih =>
    intro q
    cases op with
    | enq m =>
      rcases queue_enqueue_safe_cases q m with ⟨hs, he⟩ | ⟨hs, h0, he⟩ |
        ⟨hs, hpos, hfull, he⟩ | ⟨hs, hpos, hroom, q1, he, hb, hf, hr, hc, hcap, hsd, hsl, hi⟩
      · simpa [countSucc, applyOp, he] using ih q
      · simpa [countSucc, applyOp, he] using ih q
      · simpa [countSucc, applyOp, he] using ih q
      · have h1 := ih q1
        simp only [countSucc, applyOp, he] at h1 ⊢
        omega
    | deq now_ms aging =>
      rcases queue_dequeue_safe_cases q now_ms aging with ⟨hs, he⟩ | ⟨hs, h0, he⟩ |
        ⟨hs, hpos, hc0, he⟩ | ⟨hs, hpos, hcpos, msg, q1, he, hc, hi, hsl, hsd, hcap⟩
      · simpa [countSucc, applyOp, he] using ih q
      · simpa [countSucc, applyOp, he] using ih q
      · simpa [countSucc, applyOp, he] using ih q
      · have h1 := ih q1
        simp only [countSucc, applyOp, he] at h1 ⊢
        omega
    | shut =>
      have h1 := ih (queue_shutdown q)
      simp only [countSucc, applyOp] at h1 ⊢
      simp [queue_shutdown] at h1 ⊢
      omega

/-- Fields of the state queue_init returns. -/
theorem queue_init_fields (C : Nat) (q0 : QState) (h : queue_init C = some q0) :
    q0.count = 0 ∧ q0.slots = C ∧ q0.items = 0 ∧ q0.shutdown = false := by
  by_cases hc : C < MIN_QUEUE_SIZE ∨ MAX_QUEUE_SIZE < C
  · simp [queue_init, hc] at h
  · simp [queue_init, hc] at h
    refine ⟨?_, ?_, ?_, ?_⟩ <;> simp [← h]

/-- Outcome and flag preservation of every operation applied to a queue
whose shutdown flag is set: enqueue and dequeue return -1 with no message
and the flag stays set; a second shutdown keeps the flag set. -/
theorem applyOp_of_shutdown (op : QOp) (q : QState) (h : q.shutdown = true) :
    (applyOp op q).1 = (match op with
      | .shut => some (0, none)
      | _ => some (-1, none)) ∧
    ((applyOp op q).2).shutdown = true := by
  cases op with
  | enq m =>
    rcases queue_enqueue_safe_cases q m with ⟨hs, he⟩ | ⟨hs, _, _⟩ | ⟨hs, _, _, _⟩ |
      ⟨hs, _⟩
    · simp [applyOp, he, h]
    · simp [hs] at h
    · simp [hs] at h
    · simp [hs] at h
  | deq now_ms aging =>
    rcases queue_dequeue_safe_cases q now_ms aging with ⟨hs, he⟩ | ⟨hs, _, _⟩ |
      ⟨hs, _, _, _⟩ | ⟨hs, _⟩
    · simp [applyOp, he, h]
    · simp [hs] at h
    · simp [hs] at h
    · simp [hs] at h
  | shut => simp [applyOp, queue_shutdown]

/-- With the shutdown flag set in both states, two runs of the same
operations produce identical outcome sequences. -/
theorem runOps_outcomes_of_shutdown (ops : List QOp) : ∀ q1 q2 : QState,
    q1.shutdown = true → q2.shutdown = true →
    (runOps q1 ops).1 = (runOps q2 ops).1 := by
  induction ops with
  | nil => intro q1 q2 _ _; simp [runOps]
  | cons op ops ih =>
    intro q1 q2 h1 h2
    obtain ⟨o1, s1⟩ := applyOp_of_shutdown op q1 h1
    obtain ⟨o2, s2⟩ := applyOp_of_shutdown op q2 h2
    simp only [runOps]
    rw [o1, o2]
    exact congrArg _ (ih _ _ s1 s2)

/-- Semaphore-token conservation on every reachable state in which the
shutdown flag is still clear. -/
theorem reachable_semaphore_invariant (C : Nat) (s : QState) (h : Reachable C s) :
    s.shutdown = false → s.slots + s.count = C ∧ s.items = s.count := by
  induction h with
  | init q0 h0 =>
    intro _
    obtain ⟨hc, hsl, hit, _⟩ := queue_init_fields C q0 h0
    omega
  | step q op hq ih =>
    intro hs
    cases op with
    | enq m =>
      rcases queue_enqueue_safe_cases q m with ⟨h1, he⟩ | ⟨h1, h2, he⟩ |
        ⟨h1, h2, h3, he⟩ | ⟨h1, h2, h3, q1, he, hb, hf, hr, hc, hcap, hsd, hsl, hi⟩
      · simp only [applyOp, he] at hs
        simp [hs] at h1
      · simp only [applyOp, he] at hs ⊢
        exact ih hs
      · simp only [applyOp, he] at hs ⊢
        exact ih hs
      · simp only [applyOp, he] at hs ⊢
        obtain ⟨ha, hb2⟩ := ih h1
        omega
    | deq now_ms aging =>
      rcases queue_dequeue_safe_cases q now_ms aging with ⟨h1, he⟩ | ⟨h1, h2, he⟩ |
        ⟨h1, h2, h3, he⟩ | ⟨h1, h2, h3, msg, q1, he, hc, hi, hsl, hsd, hcap⟩
      · simp only [applyOp, he] at hs
        simp [hs] at h1
      · simp only [applyOp, he] at hs ⊢
        exact ih hs
      · simp only [applyOp, he] at hs ⊢
        exact ih hs
      · simp only [applyOp, he] at hs ⊢
        obtain ⟨ha, hb2⟩ := ih h1
        omega
    | shut =>
      simp [applyOp, queue_shutdown] at hs

/-- A sample fraction can only exceed a non-negative threshold when at
least one sample exists (in ℚ, x / 0 = 0). -/
theorem pos_samples_of_frac_gt {x n : Nat} {t : ℚ} (ht : 0 ≤ t)
    (h : (x : ℚ) / (n : ℚ) > t) : 0 < n := by
  rcases Nat.eq_zero_or_pos n with h0 | hpos
  · subst h0
    rw [Nat.cast_zero, div_zero] at h
    linarith
  · exact hpos

/-- The guarded utilisation of analytics_print_recommendations equals the
spec-side average utilisation written as a single quotient. -/
theorem utilisation_eq (s n c : Nat) :
    (if 0 < n ∧ 0 < c then (s : ℚ) / (n : ℚ) / (c : ℚ) * 100 else 0)
      = (s : ℚ) * 100 / ((n : ℚ) * (c : ℚ)) := by
  by_cases h : 0 < n ∧ 0 < c
  · rw [if_pos h]
    have hn : (n : ℚ) ≠ 0 := Nat.cast_ne_zero.mpr (by omega)
    have hc : (c : ℚ) ≠ 0 := Nat.cast_ne_zero.mpr (by omega)
    field_simp
  · rw [if_neg h]
    have h0 : (n : ℚ) = 0 ∨ (c : ℚ) = 0 := by
      rcases Nat.eq_zero_or_pos n with h1 | h1
      · exact Or.inl (by simp [h1])
      · rcases Nat.eq_zero_or_pos c with h2 | h2
        · exact Or.inr (by simp [h2])
        · exact absurd ⟨h1, h2⟩ h
    rcases h0 with h0 | h0 <;> simp [h0]

/-- C9: on every analytics state, the recommendation and suggested queue
size computed by analytics_print_recommendations coincide with the four
ordered rules of the specification (recommendation_per_spec). -/
theorem claim_recommendation_rules (a : Analytics) :
    analytics_print_recommendations a = recommendation_per_spec a := by
  obtain ⟨n, ssum, fullc, emptyc, cap, pb, cb⟩ := a
  have e1 : (0 < n ∧ 0 < pb ∧ (fullc : ℚ) / (n : ℚ) > 1 / 10) ↔
      ((fullc : ℚ) / (n : ℚ) > 1 / 10 ∧ 0 < pb) := by
    constructor
    · rintro ⟨_, hb, hf⟩; exact ⟨hf, hb⟩
    · rintro ⟨hf, hb⟩; exact ⟨pos_samples_of_frac_gt (by norm_num) hf, hb, hf⟩
  have e2 : (0 < n ∧ 0 < cb ∧ (emptyc : ℚ) / (n : ℚ) > 3 / 10) ↔
      ((emptyc : ℚ) / (n : ℚ) > 3 / 10 ∧ 0 < cb) := by
    constructor
    · rintro ⟨_, hb, hf⟩; exact ⟨hf, hb⟩
    · rintro ⟨hf, hb⟩; exact ⟨pos_samples_of_frac_gt (by norm_num) hf, hb, hf⟩
  have m1 : (if MAX_QUEUE_SIZE < cap * 2 then MAX_QUEUE_SIZE else cap * 2)
      = min (cap * 2) 20 := by
    unfold MAX_QUEUE_SIZE
    split <;> omega
  have m2 : (if cap * 7 / 10 < MIN_QUEUE_SIZE then MIN_QUEUE_SIZE else cap * 7 / 10)
      = max (cap * 7 / 10) 1 := by
    unfold MIN_QUEUE_SIZE
    split <;> omega
  simp only [analytics_print_recommendations, recommendation_per_spec]
  rw [utilisation_eq, m1, m2]
  simp only [e1, e2]

/-- Invariant of the priority scan loop: the final best entry carries the
effective priority and timestamp of the item at its index; its index is
the initial one or one of the scanned offsets; its priority never drops
below the initial best and, when it stays equal, its timestamp never
rises; and every scanned offset either has strictly smaller effective
priority or ties with a timestamp no smaller than the winner. -/
theorem scanAux_spec (q : QState) (now_ms aging : Int) (l : List Nat) :
    ∀ best : ScanBest,
      best.pri = effective_priority (q.buffer best.idx) now_ms aging →
      best.ts = (q.buffer best.idx).timestamp →
      ((scanAux q now_ms aging l best).pri =
          effective_priority (q.buffer (scanAux q now_ms aging l best).idx) now_ms aging ∧
        (scanAux q now_ms aging l best).ts =
          (q.buffer (scanAux q now_ms aging l best).idx).timestamp) ∧
      ((scanAux q now_ms aging l best).idx = best.idx ∨
        ∃ i ∈ l, (scanAux q now_ms aging l best).idx = (q.front + i) % q.capacity) ∧
      best.pri ≤ (scanAux q now_ms aging l best).pri ∧
      ((scanAux q now_ms aging l best).pri = best.pri →
        (scanAux q now_ms aging l best).ts ≤ best.ts) ∧
      (∀ i ∈ l,
        effective_priority (q.buffer ((q.front + i) % q.capacity)) now_ms aging <
            (scanAux q now_ms aging l best).pri ∨
          (effective_priority (q.buffer ((q.front + i) % q.capacity)) now_ms aging =
              (scanAux q now_ms aging l best).pri ∧
            (scanAux q now_ms aging l best).ts ≤
              (q.buffer ((q.front + i) % q.capacity)).timestamp)) := by
  induction l with
  | nil =>
    intro best hp ht
    exact ⟨⟨hp, ht⟩, Or.inl rfl, le_refl _, fun _ => le_refl _,
      fun i hi => absurd hi (List.not_mem_nil i)⟩
  | cons i rest ih =>
    intro best hp ht
    simp only [scanAux]
    split_ifs with h1 h2 h3
    · -- strictly higher priority at offset i: the best is replaced
      obtain ⟨⟨ip, it⟩, icov, ile, itie, iall⟩ :=
        ih ⟨(q.front + i) % q.capacity,
            effective_priority (q.buffer ((q.front + i) % q.capacity)) now_ms aging,
            (q.buffer ((q.front + i) % q.capacity)).timestamp⟩ rfl rfl
      refine ⟨⟨ip, it⟩, ?_, ?_, ?_, ?_⟩
      · rcases icov with hcov | ⟨j, hj, hcov⟩
        · exact Or.inr ⟨i, List.mem_cons_self i rest, hcov⟩
        · exact Or.inr ⟨j, List.mem_cons_of_mem i hj, hcov⟩
      · exact le_trans (le_of_lt h1) ile
      · intro heq
        exact absurd (lt_of_lt_of_le h1 ile) (by omega)
      · intro j hj
        rcases List.mem_cons.mp hj with rfl | hj2
        · rcases eq_or_lt_of_le ile with heq | hlt
          · exact Or.inr ⟨heq, itie heq.symm⟩
          · exact Or.inl hlt
        · exact iall j hj2
    · -- priority tie with a strictly older timestamp: the best is replaced
      obtain ⟨⟨ip, it⟩, icov, ile, itie, iall⟩ :=
        ih ⟨(q.front + i) % q.capacity, best.pri,
            (q.buffer ((q.front + i) % q.capacity)).timestamp⟩ h2.symm rfl
      refine ⟨⟨ip, it⟩, ?_, ile, ?_, ?_⟩
      · rcases icov with hcov | ⟨j, hj, hcov⟩
        · exact Or.inr ⟨i, List.mem_cons_self i rest, hcov⟩
        · exact Or.inr ⟨j, List.mem_cons_of_mem i hj, hcov⟩
      · intro heq
        exact le_trans (itie heq) (le_of_lt h3)
      · intro j hj
        rcases List.mem_cons.mp hj with rfl | hj2
        · rcases eq_or_lt_of_le ile with heq | hlt
          · exact Or.inr ⟨h2.trans heq, itie heq.symm⟩
          · exact Or.inl (lt_of_eq_of_lt h2 hlt)
        · exact iall j hj2
    · -- priority tie but not older: the best is kept
      obtain ⟨⟨ip, it⟩, icov, ile, itie, iall⟩ := ih best hp ht
      refine ⟨⟨ip, it⟩, ?_, ile, itie, ?_⟩
      · rcases icov with hcov | ⟨j, hj, hcov⟩
        · exact Or.inl hcov
        · exact Or.inr ⟨j, List.mem_cons_of_mem i hj, hcov⟩
      · intro j hj
        rcases List.mem_cons.mp hj with rfl | hj2
        · rcases eq_or_lt_of_le ile with heq | hlt
          · exact Or.inr ⟨h2.trans heq, le_trans (itie heq.symm) (not_lt.mp h3)⟩
          · exact Or.inl (lt_of_eq_of_lt h2 hlt)
        · exact iall j hj2
    · -- strictly lower priority at offset i: the best is kept
      have hlt : effective_priority (q.buffer ((q.front + i) % q.capacity)) now_ms aging
          < best.pri := lt_of_le_of_ne (not_lt.mp h1) h2
      obtain ⟨⟨ip, it⟩, icov, ile, itie, iall⟩ := ih best hp ht
      refine ⟨⟨ip, it⟩, ?_, ile, itie, ?_⟩
      · rcases icov with hcov | ⟨j, hj, hcov⟩
        · exact Or.inl hcov
        · exact Or.inr ⟨j, List.mem_cons_of_mem i hj, hcov⟩
      · intro j hj
        rcases List.mem_cons.mp hj with rfl | hj2
        · exact Or.inl (lt_of_lt_of_le hlt ile)
        · exact iall j hj2

/-- Optimality of the message internal_dequeue removes: it is one of the
resident messages, no resident message has a larger effective priority,
and among residents tying for the largest effective priority it has the
smallest timestamp. -/
theorem internal_dequeue_priority (q : QState) (now_ms aging : Int) (msg : Message)
    (q1 : QState) (hf : q.front < q.capacity)
    (h : internal_dequeue q now_ms aging = some (msg, q1)) :
    (∃ i < q.count, msg = q.buffer ((q.front + i) % q.capacity)) ∧
    (∀ i < q.count,
      effective_priority (q.buffer ((q.front + i) % q.capacity)) now_ms aging ≤
        effective_priority msg now_ms aging) ∧
    (∀ i < q.count,
      effective_priority (q.buffer ((q.front + i) % q.capacity)) now_ms aging =
        effective_priority msg now_ms aging →
      msg.timestamp ≤ (q.buffer ((q.front + i) % q.capacity)).timestamp) := by
  by_cases hc : q.count = 0
  · simp [internal_dequeue, hc] at h
  · obtain ⟨⟨ip, it⟩, icov, ile, itie, iall⟩ :=
      scanAux_spec q now_ms aging (List.range q.count)
        ⟨q.front, effective_priority (q.buffer q.front) now_ms aging,
          (q.buffer q.front).timestamp⟩ rfl rfl
    have hfind : find_highest_priority_index q now_ms aging =
        some (scanAux q now_ms aging (List.range q.count)
          ⟨q.front, effective_priority (q.buffer q.front) now_ms aging,
            (q.buffer q.front).timestamp⟩).idx := by
      simp [find_highest_priority_index, hc]
    have hmsg : msg = q.buffer (scanAux q now_ms aging (List.range q.count)
        ⟨q.front, effective_priority (q.buffer q.front) now_ms aging,
          (q.buffer q.front).timestamp⟩).idx := by
      simp [internal_dequeue, hc, hfind] at h
      exact h.1.symm
    have hpri : effective_priority msg now_ms aging =
        (scanAux q now_ms aging (List.range q.count)
          ⟨q.front, effective_priority (q.buffer q.front) now_ms aging,
            (q.buffer q.front).timestamp⟩).pri := by
      rw [hmsg]; exact ip.symm
    have hts : msg.timestamp = (scanAux q now_ms aging (List.range q.count)
        ⟨q.front, effective_priority (q.buffer q.front) now_ms aging,
          (q.buffer q.front).timestamp⟩).ts := by
      rw [hmsg]; exact it.symm
    refine ⟨?_, ?_, ?_⟩
    · rcases icov with hcov | ⟨i, hi, hcov⟩
      · refine ⟨0, Nat.pos_of_ne_zero hc, ?_⟩
        rw [hmsg, hcov]
        congr 1
        simpa using (Nat.mod_eq_of_lt hf).symm
      · exact ⟨i, List.mem_range.mp hi, by rw [hmsg, hcov]⟩
    · intro i hi
      rcases iall i (List.mem_range.mpr hi) with hlt | ⟨heq, _⟩
      · rw [hpri]; exact le_of_lt hlt
      · rw [hpri]; exact le_of_eq heq
    · intro i hi heq
      rcases iall i (List.mem_range.mpr hi) with hlt | ⟨_, hle⟩
      · rw [hpri] at heq; omega
      · rw [hts]; exact hle

/-- C1: over any sequence of completed queue operations starting from a
freshly constructed queue, the number of successful enqueues equals the
number of successful dequeues plus the final occupancy count. -/
theorem claim_conservation (C : Nat) (q0 : QState) (h : queue_init C = some q0)
    (ops : List QOp) :
    (countSucc q0 ops).1 = (countSucc q0 ops).2.1 + ((countSucc q0 ops).2.2).count := by
  have hb := countSucc_balance ops q0
  have hz := (queue_init_fields C q0 h).1
  omega

theorem claim_conservation_witness :
    (countSucc initStateOne consOpsEx).1 =
      (countSucc initStateOne consOpsEx).2.1 + ((countSucc initStateOne consOpsEx).2.2).count :=
  claim_conservation 1 initStateOne rfl consOpsEx

set_option maxHeartbeats 3200000 in
/-- C2: with aging disabled, enqueueing priorities 2, 7, 1, 9, 5 in that
order (non-decreasing timestamps) into an empty queue of capacity at
least 5 and dequeueing five times yields priorities 9, 7, 5, 2, 1. -/
theorem claim_priority_dominance (c : Nat) (h5 : 5 ≤ c) (h20 : c ≤ MAX_QUEUE_SIZE)
    (pid d1 d2 d3 d4 d5 now_ms t1 t2 t3 t4 t5 : Int)
    (h12 : t1 ≤ t2) (h23 : t2 ≤ t3) (h34 : t3 ≤ t4) (h45 : t4 ≤ t5) :
    ((queue_init c).bind (fun q0 => runEnq q0
        [⟨d1, 2, pid, t1⟩, ⟨d2, 7, pid, t2⟩, ⟨d3, 1, pid, t3⟩,
         ⟨d4, 9, pid, t4⟩, ⟨d5, 5, pid, t5⟩])).bind
      (fun q => (runDeq now_ms 0 5 q).map (fun p => p.1.map Message.priority))
      = some [9, 7, 5, 2, 1] := by
  simp only [MAX_QUEUE_SIZE] at h20
  interval_cases c <;>
    simp [runEnq, runDeq, queue_init, queue_enqueue_safe, queue_dequeue_safe,
      internal_enqueue, internal_dequeue, find_highest_priority_index,
      scanAux, shiftLoop, effective_priority, bufSet,
      MIN_QUEUE_SIZE, MAX_QUEUE_SIZE, PRIORITY_MAX, List.range_succ]

theorem claim_priority_dominance_witness :
    ((queue_init 5).bind (fun q0 => runEnq q0
        [⟨0, 2, 1, 0⟩, ⟨0, 7, 1, 1⟩, ⟨0, 1, 1, 2⟩, ⟨0, 9, 1, 3⟩, ⟨0, 5, 1, 4⟩])).bind
      (fun q => (runDeq 10 0 5 q).map (fun p => p.1.map Message.priority))
      = some [9, 7, 5, 2, 1] :=
  claim_priority_dominance 5 (by decide) (by decide) 1 0 0 0 0 0 10 0 1 2 3 4
    (by decide) (by decide) (by decide) (by decide)

/-- C3 counterexample: with a positive aging interval and an observation
time earlier than the message timestamp, the code applies no boost while
the claimed formula would lower the priority. -/
theorem claim_effective_priority_formula_cex :
    ¬ (∀ (msg : Message) (now_ms aging : Int), 0 < aging →
        effective_priority msg now_ms aging =
          min (msg.priority + (now_ms - msg.timestamp) / aging) 9) := by
  intro h
  exact absurd (h ⟨0, 3, 1, 1000⟩ 0 100 (by decide)) (by decide)

/-- C3 amended: the claimed formula holds whenever the observation time
is at least the message timestamp; when it is earlier no boost is applied
and the effective priority is the stored priority; with aging disabled
the effective priority is the stored priority. -/
theorem claim_effective_priority_formula (msg : Message) (now_ms aging : Int)
    (hp0 : 0 ≤ msg.priority) (hp9 : msg.priority ≤ 9) :
    (0 < aging → msg.timestamp ≤ now_ms →
      effective_priority msg now_ms aging =
        min (msg.priority + (now_ms - msg.timestamp) / aging) 9) ∧
    (0 < aging → now_ms < msg.timestamp →
      effective_priority msg now_ms aging = msg.priority) ∧
    (aging = 0 → effective_priority msg now_ms aging = msg.priority) := by
  refine ⟨?_, ?_, ?_⟩
  · intro ha hts
    have h1 : 0 ≤ (now_ms - msg.timestamp) / aging :=
      Int.ediv_nonneg (by omega) (le_of_lt ha)
    simp only [effective_priority, PRIORITY_MAX]
    by_cases hw : 0 < now_ms - msg.timestamp
    · rw [if_pos (show 0 < now_ms - msg.timestamp ∧ 0 < aging from ⟨hw, ha⟩)]
      split_ifs with h9 <;> omega
    · have hz : now_ms - msg.timestamp = 0 := by omega
      rw [if_neg (show ¬ (0 < now_ms - msg.timestamp ∧ 0 < aging) from
        fun hcon => hw hcon.1), hz, Int.zero_ediv]
      split_ifs with h9 <;> omega
  · intro ha hts
    simp only [effective_priority, PRIORITY_MAX]
    rw [if_neg (show ¬ (0 < now_ms - msg.timestamp ∧ 0 < aging) from
      fun hcon => by omega)]
    rw [if_neg (by omega)]
    omega
  · intro ha
    simp only [effective_priority, PRIORITY_MAX, ha]
    rw [if_neg (show ¬ (0 < now_ms - msg.timestamp ∧ 0 < (0:Int)) from
      fun hcon => by omega)]
    rw [if_neg (by omega)]
    omega

theorem claim_effective_priority_formula_witness :
    effective_priority ⟨0, 3, 1, 0⟩ 500 100 = 8 ∧
    effective_priority ⟨0, 3, 1, 0⟩ 10000 100 = 9 := by
  have h1 := (claim_effective_priority_formula ⟨0, 3, 1, 0⟩ 500 100
    (by decide) (by decide)).1 (by decide) (by decide)
  have h2 := (claim_effective_priority_formula ⟨0, 3, 1, 0⟩ 10000 100
    (by decide) (by decide)).1 (by decide) (by decide)
  refine ⟨?_, ?_⟩
  · rw [h1]; decide
  · rw [h2]; decide

set_option maxHeartbeats 3200000 in
/-- C4: whenever resident messages tie for the highest effective priority
the dequeue scan selects the oldest timestamp; in particular, with aging
off, three priority-5 messages from producers A, B, C enqueued in that
order (non-decreasing timestamps) dequeue as A, B, C. -/
theorem claim_fifo_within_band :
    (∀ (q : QState) (now_ms aging : Int) (msg : Message) (q1 : QState),
      q.front < q.capacity →
      internal_dequeue q now_ms aging = some (msg, q1) →
      (∃ i < q.count, msg = q.buffer ((q.front + i) % q.capacity)) ∧
      (∀ i < q.count,
        effective_priority (q.buffer ((q.front + i) % q.capacity)) now_ms aging ≤
          effective_priority msg now_ms aging) ∧
      (∀ i < q.count,
        effective_priority (q.buffer ((q.front + i) % q.capacity)) now_ms aging =
          effective_priority msg now_ms aging →
        msg.timestamp ≤ (q.buffer ((q.front + i) % q.capacity)).timestamp)) ∧
    (∀ (c : Nat), 3 ≤ c → c ≤ MAX_QUEUE_SIZE →
      ∀ (ida idb idc da db dc now_ms ta tb tc : Int), ta ≤ tb → tb ≤ tc →
      ((queue_init c).bind (fun q0 => runEnq q0
          [⟨da, 5, ida, ta⟩, ⟨db, 5, idb, tb⟩, ⟨dc, 5, idc, tc⟩])).bind
        (fun q => (runDeq now_ms 0 3 q).map (fun p => p.1.map Message.producer_id))
        = some [ida, idb, idc]) := by
  constructor
  · intro q now_ms aging msg q1 hf h
    exact internal_dequeue_priority q now_ms aging msg q1 hf h
  · intro c h3 h20 ida idb idc da db dc now_ms ta tb tc hab hbc
    have hac : ta ≤ tc := le_trans hab hbc
    simp only [MAX_QUEUE_SIZE] at h20
    interval_cases c <;>
      simp [runEnq, runDeq, queue_init, queue_enqueue_safe, queue_dequeue_safe,
        internal_enqueue, internal_dequeue, find_highest_priority_index,
        scanAux, shiftLoop, effective_priority, bufSet,
        MIN_QUEUE_SIZE, MAX_QUEUE_SIZE, PRIORITY_MAX, List.range_succ,
        not_lt.mpr hab, not_lt.mpr hbc, not_lt.mpr hac]

theorem claim_fifo_within_band_witness :
    ((queue_init 3).bind (fun q0 => runEnq q0
        [⟨0, 5, 1, 0⟩, ⟨0, 5, 2, 0⟩, ⟨0, 5, 3, 1⟩])).bind
      (fun q => (runDeq 7 0 3 q).map (fun p => p.1.map Message.producer_id))
      = some [1, 2, 3] :=
  claim_fifo_within_band.2 3 (by decide) (by decide) 1 2 3 0 0 0 7 0 0 1
    (by decide) (by decide)

/-- C6: an enqueue against a queue whose shutdown flag is set returns -1
and leaves the state (buffer, occupancy, indices, semaphores) exactly as
before the call. -/
theorem claim_enqueue_rejected_under_shutdown (q : QState) (msg : Message)
    (h : q.shutdown = true) :
    queue_enqueue_safe q msg = some (-1, q) := by
  simp [queue_enqueue_safe, h]

theorem claim_enqueue_rejected_under_shutdown_witness :
    shutdownStateEx.shutdown = true ∧
    queue_enqueue_safe shutdownStateEx ⟨4, 8, 2, 200⟩ = some (-1, shutdownStateEx) :=
  ⟨rfl, claim_enqueue_rejected_under_shutdown shutdownStateEx ⟨4, 8, 2, 200⟩ rfl⟩

/-- C7: the shutdown flag, once set, survives every further operation, and
after a second shutdown call every sequence of operations produces the
same outcome sequence as after a single call. -/
theorem claim_shutdown_monotone_idempotent :
    (∀ (q : QState) (op : QOp), q.shutdown = true → ((applyOp op q).2).shutdown = true) ∧
    (∀ (q : QState) (ops : List QOp),
      (runOps (queue_shutdown (queue_shutdown q)) ops).1 =
        (runOps (queue_shutdown q) ops).1) := by
  constructor
  · exact fun q op h => (applyOp_of_shutdown op q h).2
  · intro q ops
    exact runOps_outcomes_of_shutdown ops _ _ rfl rfl

theorem claim_shutdown_monotone_idempotent_witness :
    ((applyOp .shut (queue_shutdown initStateOne)).2).shutdown = true ∧
    (runOps (queue_shutdown (queue_shutdown initStateOne))
        [.enq ⟨0, 1, 1, 0⟩, .deq 2 0, .shut]).1 =
      (runOps (queue_shutdown initStateOne) [.enq ⟨0, 1, 1, 0⟩, .deq 2 0, .shut]).1 :=
  ⟨claim_shutdown_monotone_idempotent.1 (queue_shutdown initStateOne) .shut rfl,
    claim_shutdown_monotone_idempotent.2 initStateOne [.enq ⟨0, 1, 1, 0⟩, .deq 2 0, .shut]⟩

/-- C8 counterexample: the very first shutdown call already breaks the
claimed post-shutdown semaphore equation, because it posts
MAX_PRODUCERS + MAX_CONSUMERS wake-up tokens to each semaphore. -/
theorem claim_semaphore_conservation_cex :
    Reachable 1 (queue_shutdown initStateOne) ∧
    ¬ ((queue_shutdown initStateOne).slots + (queue_shutdown initStateOne).count = 1 ∧
      (queue_shutdown initStateOne).items = (queue_shutdown initStateOne).count) := by
  constructor
  · exact Reachable.step initStateOne .shut (Reachable.init initStateOne rfl)
  · decide

/-- C8 amended: in every reachable state in which shutdown has not yet
been requested, the slots semaphore value plus the occupancy equals the
capacity and the items semaphore value equals the occupancy. -/
theorem claim_semaphore_conservation (C : Nat) (s : QState)
    (h : Reachable C s) (hs : s.shutdown = false) :
    s.slots + s.count = C ∧ s.items = s.count :=
  reachable_semaphore_invariant C s h hs

theorem claim_semaphore_conservation_witness :
    initStateOne.slots + initStateOne.count = 1 ∧ initStateOne.items = initStateOne.count :=
  claim_semaphore_conservation 1 initStateOne (Reachable.init initStateOne rfl) rfl

/-- C10: with the shutdown flag set, every dequeue call returns -1 without
delivering a message and without modifying the state, even while the
occupancy is positive. -/
theorem claim_no_drain_after_shutdown (q : QState) (now_ms aging : Int)
    (h : q.shutdown = true) :
    queue_dequeue_safe q now_ms aging = some (-1, none, q) := by
  simp [queue_dequeue_safe, h]

theorem claim_no_drain_after_shutdown_witness :
    shutdownStateEx.shutdown = true ∧ 0 < shutdownStateEx.count ∧
    queue_dequeue_safe shutdownStateEx 300 0 = some (-1, none, shutdownStateEx) :=
  ⟨rfl, by decide, claim_no_drain_after_shutdown shutdownStateEx 300 0 rfl⟩
